import Mathlib

/-!
Verification of the DriveSage core services against their specification.

The development shallowly embeds the two main-process services of the
application: the drive analysis service (tree walk, folder profiler,
entry classifier, duplicate detector) and the file organization service
(the operation executor).  Filesystem reads are modelled by a pure tree
of entries together with an oracle describing which stat and readdir
calls fail; filesystem writes performed by the executor are modelled by
an oracle on attempted actions and an explicit trace of the calls made.
-/

namespace DriveSage

/-! ## JavaScript string primitives used by the source -/

/-- Model of the JavaScript toLowerCase operation on strings. -/
def strLower (s : String) : String := ⟨s.data.map Char.toLower⟩

/-- Boolean test that the first list is a leading segment of the second. -/
def isPrefB : List Char → List Char → Bool
  | [], _ => true
  | _ :: _, [] => false
  | a :: as, b :: bs => a == b && isPrefB as bs

/-- Boolean test that the first list occurs contiguously inside the second. -/
def isInfB (p : List Char) : List Char → Bool
  | [] => p.isEmpty
  | c :: rest => isPrefB p (c :: rest) || isInfB p rest

/-- Model of the JavaScript includes operation: substring containment. -/
def strIncludes (s p : String) : Bool := isInfB p.data s.data

/-- Truthiness of an optional string under JavaScript rules: undefined and
the empty string are falsy. -/
def jsTruthy : Option String → Bool
  | none => false
  | some s => !(s == "")

/-- Model of the JavaScript a || b expression on optional strings. -/
def jsOr (a b : Option String) : Option String := if jsTruthy a then a else b

/-! ## Decimal representation toolkit

The duplicate detector keys its index by the template string
name ++ "_" ++ size.  To reason about that key we need that the decimal
representation of a natural number is injective and contains no
underscore character. -/

/-- Numeric value of a decimal digit character. -/
def charVal (c : Char) : Nat := c.toNat - 48

/-- Value of a most-significant-first list of decimal digit characters. -/
def digitsVal (l : List Char) : Nat := l.foldl (fun a c => 10 * a + charVal c) 0

/-- Reference decimal digit list of a natural number. -/
def decDigits (n : Nat) : List Char :=
  if _h : n < 10 then [Nat.digitChar n]
  else decDigits (n / 10) ++ [Nat.digitChar (n % 10)]
termination_by n
decreasing_by
  exact Nat.div_lt_self (by omega) (by omega)

theorem charVal_digitChar {n : Nat} (h : n < 10) : charVal (Nat.digitChar n) = n := by
  interval_cases n <;> decide

theorem digitChar_ne_underscore {n : Nat} (h : n < 10) : Nat.digitChar n ≠ '_' := by
  interval_cases n <;> decide

theorem digitsVal_decDigits (n : Nat) : digitsVal (decDigits n) = n := by
  induction n using decDigits.induct with
  | case1 n h =>
      rw [decDigits]
      simp only [h, dif_pos]
      simp [digitsVal, charVal_digitChar h]
  | case2 n h ih =>
      rw [decDigits]
      simp only [h, dif_neg, not_false_iff]
      have hfold : digitsVal (decDigits (n / 10) ++ [Nat.digitChar (n % 10)])
          = 10 * digitsVal (decDigits (n / 10)) + charVal (Nat.digitChar (n % 10)) := by
        simp [digitsVal, List.foldl_append]
      rw [hfold, ih, charVal_digitChar (Nat.mod_lt n (by omega))]
      omega

theorem underscore_not_mem_decDigits (n : Nat) : '_' ∉ decDigits n := by
  induction n using decDigits.induct with
  | case1 n h =>
      rw [decDigits]
      simp only [h, dif_pos]
      intro hc
      have : '_' = Nat.digitChar n := by simpa using hc
      exact absurd this.symm (digitChar_ne_underscore h)
  | case2 n h ih =>
      rw [decDigits]
      simp only [h, dif_neg, not_false_iff]
      intro hmem
      rcases List.mem_append.mp hmem with hl | hr
      · exact ih hl
      · have : '_' = Nat.digitChar (n % 10) := by simpa using hr
        exact absurd this.symm (digitChar_ne_underscore (Nat.mod_lt n (by omega)))

theorem toDigitsCore_eq_decDigits :
    ∀ (f n : Nat) (ds : List Char), 1 ≤ f → n < 10 ^ f →
      Nat.toDigitsCore 10 f n ds = decDigits n ++ ds := by
  intro f
  induction f with
  | zero => intro n ds h1 _; omega
  | succ f ih =>
      intro n ds _ h2
      by_cases hlt : n < 10
      · have hdiv : n / 10 = 0 := Nat.div_eq_of_lt hlt
        rw [Nat.toDigitsCore]
        simp only [hdiv, if_pos]
        rw [decDigits]
        simp only [hlt, dif_pos]
        have : n % 10 = n := Nat.mod_eq_of_lt hlt
        simp [this]
      · have hdiv : ¬ n / 10 = 0 := by
          intro h0
          have : n < 10 := by
            have := Nat.div_add_mod n 10
            have hm : n % 10 < 10 := Nat.mod_lt n (by omega)
            omega
          exact hlt this
        rw [Nat.toDigitsCore]
        simp only [hdiv, if_neg, not_false_iff]
        have hf1 : 1 ≤ f := by
          by_contra hf0
          have : f = 0 := by omega
          subst this
          have : n < 10 := by simpa using h2
          exact hlt this
        have hbound : n / 10 < 10 ^ f := by
          have h10 : 0 < 10 := by omega
          rw [Nat.div_lt_iff_lt_mul h10]
          calc n < 10 ^ (f + 1) := h2
            _ = 10 ^ f * 10 := by rw [pow_succ]
        rw [ih (n / 10) (Nat.digitChar (n % 10) :: ds) hf1 hbound]
        conv_rhs => rw [decDigits]
        simp only [hlt, dif_neg, not_false_iff]
        simp

theorem repr_eq_decDigits (n : Nat) : (Nat.repr n).data = decDigits n := by
  have hself : n < 10 ^ (n + 1) := by
    calc n < 10 ^ n := Nat.lt_pow_self (by omega) n
      _ ≤ 10 ^ (n + 1) := Nat.pow_le_pow_right (by omega) (by omega)
  have := toDigitsCore_eq_decDigits (n + 1) n [] (by omega) hself
  simp only [Nat.repr, Nat.toDigits]
  rw [this]
  simp [List.asString]

theorem repr_injective {n m : Nat} (h : Nat.repr n = Nat.repr m) : n = m := by
  have hd : decDigits n = decDigits m := by
    rw [← repr_eq_decDigits, ← repr_eq_decDigits, h]
  calc n = digitsVal (decDigits n) := (digitsVal_decDigits n).symm
    _ = digitsVal (decDigits m) := by rw [hd]
    _ = m := digitsVal_decDigits m

theorem underscore_not_mem_repr (n : Nat) : '_' ∉ (Nat.repr n).data := by
  rw [repr_eq_decDigits]; exact underscore_not_mem_decDigits n

/-- Splitting a list at an element that occurs in neither leading part is
unambiguous. -/
theorem append_cons_split {α : Type} (c : α) :
    ∀ (xs xs' ys ys' : List α), c ∉ xs → c ∉ xs' →
      xs ++ c :: ys = xs' ++ c :: ys' → xs = xs' ∧ ys = ys' := by
  intro xs
  induction xs with
  | nil =>
      intro xs' ys ys' _ hx' heq
      cases xs' with
      | nil => simpa using heq
      | cons d t =>
          simp only [List.nil_append, List.cons_append, List.cons.injEq] at heq
          exact absurd (heq.1 ▸ List.mem_cons_self d t) hx'
  | cons a tl ih =>
      intro xs' ys ys' hx hx' heq
      cases xs' with
      | nil =>
          simp only [List.cons_append, List.nil_append, List.cons.injEq] at heq
          exact absurd (heq.1 ▸ List.mem_cons_self a tl) hx
      | cons b t =>
          simp only [List.cons_append, List.cons.injEq] at heq
          obtain ⟨hab, htl⟩ := heq
          have hmx : c ∉ tl := fun hm => hx (List.mem_cons_of_mem a hm)
          have hmx' : c ∉ t := fun hm => hx' (List.mem_cons_of_mem b hm)
          obtain ⟨h1, h2⟩ := ih t ys ys' hmx hmx' htl
          exact ⟨by rw [hab, h1], h2⟩

/-- Splitting a list at an element that occurs in neither trailing part is
unambiguous. -/
theorem append_cons_split_last {α : Type} (c : α)
    (xs xs' ys ys' : List α) (hy : c ∉ ys) (hy' : c ∉ ys')
    (heq : xs ++ c :: ys = xs' ++ c :: ys') : xs = xs' ∧ ys = ys' := by
  have hrev : ys.reverse ++ c :: xs.reverse = ys'.reverse ++ c :: xs'.reverse := by
    have := congrArg List.reverse heq
    simpa [List.reverse_append, List.append_assoc] using this
  have hm : c ∉ ys.reverse := by simpa using hy
  have hm' : c ∉ ys'.reverse := by simpa using hy'
  obtain ⟨h1, h2⟩ := append_cons_split c ys.reverse ys'.reverse xs.reverse xs'.reverse hm hm' hrev
  constructor
  · have := congrArg List.reverse h2; simpa using this
  · have := congrArg List.reverse h1; simpa using this

/-- The duplicate-index key of the source: name ++ "_" ++ decimal size. -/
def mkHash (name : String) (size : Nat) : String := name ++ "_" ++ Nat.repr size

theorem string_data_append (a b : String) : (a ++ b).data = a.data ++ b.data := rfl

theorem mkHash_injective {n1 n2 : String} {s1 s2 : Nat}
    (h : mkHash n1 s1 = mkHash n2 s2) : n1 = n2 ∧ s1 = s2 := by
  have hdata : n1.data ++ '_' :: (Nat.repr s1).data
      = n2.data ++ '_' :: (Nat.repr s2).data := by
    have := congrArg String.data h
    simpa [mkHash, string_data_append] using this
  obtain ⟨h1, h2⟩ := append_cons_split_last '_' n1.data n2.data
    (Nat.repr s1).data (Nat.repr s2).data
    (underscore_not_mem_repr s1) (underscore_not_mem_repr s2) hdata
  refine ⟨?_, ?_⟩
  · cases n1; cases n2; exact congrArg String.mk h1
  · apply repr_injective
    have e1 : Nat.repr s1 = ⟨(Nat.repr s1).data⟩ := rfl
    have e2 : Nat.repr s2 = ⟨(Nat.repr s2).data⟩ := rfl
    rw [e1, e2, h2]

/-! ## Operation executor (FileOrganizationService)

Operations are duck-typed records in the source; we model them as a
record of the type tag together with every field any branch of the
executor reads, each optional because a JavaScript record may omit it.
Real-mode filesystem calls are decided by an oracle from attempted
actions to an optional thrown error message; the trace of attempted
calls is returned alongside the result so that dry-run purity is a
provable statement. -/

structure Operation where
  type : String
  source : Option String
  destination : Option String
  path : Option String
  oldPath : Option String
  newPath : Option String
deriving DecidableEq

/-- Filesystem mutation attempted by the executor: fs.move or fs.remove.
A rename issues a move action, exactly as in the source. -/
inductive FsAction where
  | move (src dst : Option String)
  | remove (p : Option String)
deriving DecidableEq

structure OpError where
  operation : String
  path : Option String
  error : String
deriving DecidableEq

structure OpSummary where
  total : Nat
  successful : Nat
  failed : Nat
deriving DecidableEq

structure OperationResult where
  moved : List (Option String × Option String)
  deleted : List (Option String)
  renamed : List (Option String × Option String)
  errors : List OpError
  summary : OpSummary
deriving DecidableEq

/-- One executor dispatch: FileOrganizationService.executeOperation.
Returns the updated result record or the thrown error message, together
with the list of filesystem calls attempted. -/
def executeOperation (fsO : FsAction → Option String) (op : Operation)
    (results : OperationResult) (dryRun : Bool) :
    Except String OperationResult × List FsAction :=
  if op.type = "move" then
    if dryRun then
      (Except.ok { results with moved := results.moved ++ [(op.source, op.destination)] }, [])
    else
      match fsO (.move op.source op.destination) with
      | some e => (Except.error e, [.move op.source op.destination])
      | none =>
          (Except.ok { results with moved := results.moved ++ [(op.source, op.destination)] },
           [.move op.source op.destination])
  else if op.type = "delete" then
    if dryRun then
      (Except.ok { results with deleted := results.deleted ++ [op.path] }, [])
    else
      match fsO (.remove op.path) with
      | some e => (Except.error e, [.remove op.path])
      | none =>
          (Except.ok { results with deleted := results.deleted ++ [op.path] }, [.remove op.path])
  else if op.type = "rename" then
    if dryRun then
      (Except.ok { results with renamed := results.renamed ++ [(op.oldPath, op.newPath)] }, [])
    else
      match fsO (.move op.oldPath op.newPath) with
      | some e => (Except.error e, [.move op.oldPath op.newPath])
      | none =>
          (Except.ok { results with renamed := results.renamed ++ [(op.oldPath, op.newPath)] },
           [.move op.oldPath op.newPath])
  else
    (Except.error ("Unknown operation type: " ++ op.type), [])

/-- Loop body of FileOrganizationService.organizeFiles: run one operation,
then record success or failure in the accumulated result. -/
def orgStep (fsO : FsAction → Option String) (dryRun : Bool)
    (acc : OperationResult × List FsAction) (op : Operation) :
    OperationResult × List FsAction :=
  match executeOperation fsO op acc.1 dryRun with
  | (Except.ok r, cs) =>
      ({ r with summary := { r.summary with successful := r.summary.successful + 1 } },
       acc.2 ++ cs)
  | (Except.error e, cs) =>
      ({ acc.1 with
          errors := acc.1.errors ++ [⟨op.type, jsOr op.source op.path, e⟩],
          summary := { acc.1.summary with failed := acc.1.summary.failed + 1 } },
       acc.2 ++ cs)

/-- Initial result record of organizeFiles for a given input length. -/
def orgInit (n : Nat) : OperationResult := ⟨[], [], [], [], ⟨n, 0, 0⟩⟩

/-- FileOrganizationService.organizeFiles: fold the step over the input
operations starting from the fresh result record. -/
def organizeFiles (fsO : FsAction → Option String) (operations : List Operation)
    (dryRun : Bool) : OperationResult × List FsAction :=
  operations.foldl (orgStep fsO dryRun) (orgInit operations.length, [])

theorem executeOperation_summary (fsO : FsAction → Option String) (op : Operation)
    (r : OperationResult) (dryRun : Bool) {r' : OperationResult} {cs : List FsAction}
    (h : executeOperation fsO op r dryRun = (Except.ok r', cs)) :
    r'.summary = r.summary := by
  unfold executeOperation at h
  split_ifs at h <;> (try split at h) <;> simp_all <;> rw [← h.1]

theorem foldl_orgStep_summary (fsO : FsAction → Option String) (dryRun : Bool) :
    ∀ (ops : List Operation) (acc : OperationResult × List FsAction),
      (ops.foldl (orgStep fsO dryRun) acc).1.summary.total = acc.1.summary.total ∧
      (ops.foldl (orgStep fsO dryRun) acc).1.summary.successful
        + (ops.foldl (orgStep fsO dryRun) acc).1.summary.failed
        = acc.1.summary.successful + acc.1.summary.failed + ops.length := by
  intro ops
  induction ops with
  | nil => intro acc; simp
  | cons op rest ih =>
      intro acc
      rw [List.foldl_cons]
      obtain ⟨iht, ihs⟩ := ih (orgStep fsO dryRun acc op)
      have hstep : (orgStep fsO dryRun acc op).1.summary.total = acc.1.summary.total ∧
          (orgStep fsO dryRun acc op).1.summary.successful
            + (orgStep fsO dryRun acc op).1.summary.failed
            = acc.1.summary.successful + acc.1.summary.failed + 1 := by
        unfold orgStep
        rcases he : executeOperation fsO op acc.1 dryRun with ⟨res, cs⟩
        cases res with
        | ok r' =>
            have hs := executeOperation_summary fsO op acc.1 dryRun he
            simp [he, hs]
            omega
        | error e => simp [he]; omega
      constructor
      · rw [iht, hstep.1]
      · rw [ihs, hstep.2]; simp [List.length_cons]; omega

/-- C1: after any executor run, with any dry-run flag and any filesystem
behaviour, the summary satisfies total = length of the input operation
list and successful + failed = total, including runs whose list contains
operations of unsupported type. -/
theorem organizeFiles_summary_invariant (fsO : FsAction → Option String)
    (operations : List Operation) (dryRun : Bool) :
    (organizeFiles fsO operations dryRun).1.summary.total = operations.length ∧
    (organizeFiles fsO operations dryRun).1.summary.successful
      + (organizeFiles fsO operations dryRun).1.summary.failed
      = (organizeFiles fsO operations dryRun).1.summary.total := by
  obtain ⟨ht, hs⟩ := foldl_orgStep_summary fsO dryRun operations (orgInit operations.length, [])
  unfold organizeFiles
  constructor
  · rw [ht]; rfl
  · rw [hs, ht]; simp [orgInit]

theorem foldl_orgStep_dryRun (fsO : FsAction → Option String) :
    ∀ (ops : List Operation) (acc : OperationResult × List FsAction),
      (ops.foldl (orgStep fsO true) acc).2 = acc.2 ∧
      (ops.foldl (orgStep fsO true) acc).1.moved
        = acc.1.moved ++ ops.filterMap
            (fun op => if op.type = "move" then some (op.source, op.destination) else none) ∧
      (ops.foldl (orgStep fsO true) acc).1.deleted
        = acc.1.deleted ++ ops.filterMap
            (fun op => if op.type = "delete" then some op.path else none) ∧
      (ops.foldl (orgStep fsO true) acc).1.renamed
        = acc.1.renamed ++ ops.filterMap
            (fun op => if op.type = "rename" then some (op.oldPath, op.newPath) else none) := by
  intro ops
  induction ops with
  | nil => intro acc; simp
  | cons op rest ih =>
      intro acc
      rw [List.foldl_cons]
      obtain ⟨ihc, ihm, ihd, ihr⟩ := ih (orgStep fsO true acc op)
      by_cases hm : op.type = "move"
      · have hstep : orgStep fsO true acc op
            = ({ acc.1 with
                  moved := acc.1.moved ++ [(op.source, op.destination)],
                  summary := { acc.1.summary with
                    successful := acc.1.summary.successful + 1 } },
               acc.2) := by
          simp [orgStep, executeOperation, hm]
        refine ⟨?_, ?_, ?_, ?_⟩
        · rw [ihc, hstep]
        · rw [ihm, hstep]; simp [List.filterMap_cons, hm]
        · rw [ihd, hstep]; simp [List.filterMap_cons, hm]
        · rw [ihr, hstep]; simp [List.filterMap_cons, hm]
      · by_cases hd : op.type = "delete"
        · have hstep : orgStep fsO true acc op
              = ({ acc.1 with
                    deleted := acc.1.deleted ++ [op.path],
                    summary := { acc.1.summary with
                      successful := acc.1.summary.successful + 1 } },
                 acc.2) := by
            simp [orgStep, executeOperation, hm, hd]
          refine ⟨?_, ?_, ?_, ?_⟩
          · rw [ihc, hstep]
          · rw [ihm, hstep]; simp [List.filterMap_cons, hm, hd]
          · rw [ihd, hstep]; simp [List.filterMap_cons, hm, hd]
          · rw [ihr, hstep]; simp [List.filterMap_cons, hm, hd]
        · by_cases hr : op.type = "rename"
          · have hstep : orgStep fsO true acc op
                = ({ acc.1 with
                      renamed := acc.1.renamed ++ [(op.oldPath, op.newPath)],
                      summary := { acc.1.summary with
                        successful := acc.1.summary.successful + 1 } },
                   acc.2) := by
              simp [orgStep, executeOperation, hm, hd, hr]
            refine ⟨?_, ?_, ?_, ?_⟩
            · rw [ihc, hstep]
            · rw [ihm, hstep]; simp [List.filterMap_cons, hm, hd, hr]
            · rw [ihd, hstep]; simp [List.filterMap_cons, hm, hd, hr]
            · rw [ihr, hstep]; simp [List.filterMap_cons, hm, hd, hr]
          · have hstep : orgStep fsO true acc op
                = ({ acc.1 with
                     errors := acc.1.errors
                       ++ [⟨op.type, jsOr op.source op.path,
                            "Unknown operation type: " ++ op.type⟩],
                     summary := { acc.1.summary with
                       failed := acc.1.summary.failed + 1 } }, acc.2) := by
              simp [orgStep, executeOperation, hm, hd, hr]
            refine ⟨?_, ?_, ?_, ?_⟩
            · rw [ihc, hstep]
            · rw [ihm, hstep]; simp [List.filterMap_cons, hm, hd, hr]
            · rw [ihd, hstep]; simp [List.filterMap_cons, hm, hd, hr]
            · rw [ihr, hstep]; simp [List.filterMap_cons, hm, hd, hr]

/-- C2: executing any operation list with dryRun = true attempts no
filesystem call at all, whatever the filesystem oracle would answer,
while still returning a result whose summary.total equals the input
length and whose moved, deleted and renamed ledgers record exactly the
simulated move, delete and rename operations in input order. -/
theorem organizeFiles_dryRun_frame (fsO : FsAction → Option String)
    (operations : List Operation) :
    (organizeFiles fsO operations true).2 = [] ∧
    (organizeFiles fsO operations true).1.summary.total = operations.length ∧
    (organizeFiles fsO operations true).1.moved
      = operations.filterMap
          (fun op => if op.type = "move" then some (op.source, op.destination) else none) ∧
    (organizeFiles fsO operations true).1.deleted
      = operations.filterMap (fun op => if op.type = "delete" then some op.path else none) ∧
    (organizeFiles fsO operations true).1.renamed
      = operations.filterMap
          (fun op => if op.type = "rename" then some (op.oldPath, op.newPath) else none) := by
  obtain ⟨hc, hm, hd, hr⟩ := foldl_orgStep_dryRun fsO operations (orgInit operations.length, [])
  obtain ⟨ht, _⟩ := foldl_orgStep_summary fsO true operations (orgInit operations.length, [])
  unfold organizeFiles at *
  refine ⟨?_, by rw [ht]; rfl, ?_, ?_, ?_⟩
  · simpa using hc
  · simpa [orgInit] using hm
  · simpa [orgInit] using hd
  · simpa [orgInit] using hr

/-- C5: an operation of unsupported type fails exactly that operation,
appending an unsupported-operation error and incrementing summary.failed,
and the executor then still runs every subsequent operation of the input. -/
theorem organizeFiles_unsupported_isolated (fsO : FsAction → Option String)
    (dryRun : Bool) (preOps postOps : List Operation) (bad : Operation)
    (h1 : bad.type ≠ "move") (h2 : bad.type ≠ "delete") (h3 : bad.type ≠ "rename") :
    organizeFiles fsO (preOps ++ bad :: postOps) dryRun
      = postOps.foldl (orgStep fsO dryRun)
          (let mid := preOps.foldl (orgStep fsO dryRun)
              (orgInit (preOps ++ bad :: postOps).length, []);
            ({ mid.1 with
                errors := mid.1.errors
                  ++ [⟨bad.type, jsOr bad.source bad.path,
                       "Unknown operation type: " ++ bad.type⟩],
                summary := { mid.1.summary with failed := mid.1.summary.failed + 1 } },
             mid.2)) := by
  unfold organizeFiles
  rw [List.foldl_append, List.foldl_cons]
  have hstep : ∀ acc : OperationResult × List FsAction,
      orgStep fsO dryRun acc bad
        = ({ acc.1 with
              errors := acc.1.errors
                ++ [⟨bad.type, jsOr bad.source bad.path,
                     "Unknown operation type: " ++ bad.type⟩],
              summary := { acc.1.summary with failed := acc.1.summary.failed + 1 } },
           acc.2) := by
    intro acc
    simp [orgStep, executeOperation, h1, h2, h3]
  rw [hstep]

/-- Concrete delete operation used by the C5 witness. -/
def delOpX : Operation := ⟨"delete", none, none, some "/t/x", none, none⟩

/-- Concrete delete operation used by the C5 witness. -/
def delOpY : Operation := ⟨"delete", none, none, some "/t/y", none, none⟩

/-- Concrete operation of unsupported type used by the C5 witness. -/
def copyOpZ : Operation := ⟨"copy", none, none, some "/t/z", none, none⟩

/-- Witness for C5 at a concrete input: a copy operation between two
delete operations fails alone and the trailing delete still runs. -/
theorem organizeFiles_unsupported_isolated_witness :
    organizeFiles (fun _ => none) ([delOpX] ++ copyOpZ :: [delOpY]) true
      = List.foldl (orgStep (fun _ => none) true)
          (let mid := List.foldl (orgStep (fun _ => none) true)
              (orgInit ([delOpX] ++ copyOpZ :: [delOpY]).length, []) [delOpX];
            ({ mid.1 with
                errors := mid.1.errors
                  ++ [⟨copyOpZ.type, jsOr copyOpZ.source copyOpZ.path,
                       "Unknown operation type: " ++ copyOpZ.type⟩],
                summary := { mid.1.summary with failed := mid.1.summary.failed + 1 } },
             mid.2))
          [delOpY] :=
  organizeFiles_unsupported_isolated (fun _ => none) true [delOpX] [delOpY] copyOpZ
    (by decide) (by decide) (by decide)

/-- C7: a failed rename records an error entry whose path field is
undefined rather than the targeted path, because the source falls back to
operation.source and operation.path, neither of which a rename carries.
The recorded entry keeps the operation type and the failure message. -/
theorem organizeFiles_rename_error_path_missing :
    (organizeFiles (fun _ => some "ENOENT: no such file or directory")
        [⟨"rename", none, none, none, some "/d/a.txt", some "/d/b.txt"⟩] false).1.errors
      = [⟨"rename", none, "ENOENT: no such file or directory"⟩] := by
  simp [organizeFiles, orgStep, executeOperation, orgInit, jsOr, jsTruthy]

/-! ## Entry classifier (DriveAnalysisService) -/

/-- DriveAnalysisService.isSystemFile: exact membership in the fixed
OS-clutter name set. -/
def isSystemFile (filename : String) : Bool :=
  [".DS_Store", "Thumbs.db", ".Spotlight-V100", ".fseventsd"].contains filename

/-- Hard-coded pattern list of DriveAnalysisService.isProtectedFile. -/
def protectedPatterns : List String := ["gemini", "ai", "assistant", "code", "project"]

/-- DriveAnalysisService.isProtectedFile: the source takes only the file
name and tests the lowercased name against the hard-coded pattern list. -/
def isProtectedFile (filename : String) : Bool :=
  protectedPatterns.any (fun pattern => strIncludes (strLower filename) pattern)

/-- Modelled from the spec: the protected-file classifier described by the
specification, taking a caller-configured pattern list and returning true
iff the lowercased name contains some lowercased pattern of that list. -/
def isProtectedFileSpec (filename : String) (patterns : List String) : Bool :=
  patterns.any (fun pattern => strIncludes (strLower filename) (strLower pattern))

/-- C6 counterexample: the classifier of the source ignores the caller
pattern list, so for the name ai and the pattern list zzz the source
classifier answers true while the specified classifier answers false. -/
theorem isProtectedFile_ignores_caller_patterns :
    isProtectedFile "ai" = true ∧ isProtectedFileSpec "ai" ["zzz"] = false ∧
    isProtectedFile "ai" ≠ isProtectedFileSpec "ai" ["zzz"] := by
  decide

/-- C6 amended: the protected-file classifier returns true iff the
lowercased name contains some pattern of the fixed built-in list gemini,
ai, assistant, code, project; the pattern list is not caller-configurable,
so the classifier agrees with the specified one exactly at the default
pattern list. -/
theorem isProtectedFile_fixed_patterns (filename : String) :
    isProtectedFile filename = isProtectedFileSpec filename protectedPatterns := by
  simp only [isProtectedFile, isProtectedFileSpec, protectedPatterns,
    List.any_cons, List.any_nil]
  rw [(by decide : strLower "gemini" = "gemini"), (by decide : strLower "ai" = "ai"),
    (by decide : strLower "assistant" = "assistant"), (by decide : strLower "code" = "code"),
    (by decide : strLower "project" = "project")]

/-! ## Filesystem model

A directory tree is a pure value; an oracle tells which stat calls and
which readdir calls fail and with which message.  Paths are produced by
the join model below, matching path.join on the inputs the services use. -/

inductive FsEntry where
  | file (name : String) (size : Nat) (modified : Nat)
  | dir (name : String) (children : List FsEntry)

/-- Name component of an entry. -/
def entryName : FsEntry → String
  | .file nm _ _ => nm
  | .dir nm _ => nm

/-- Model of path.join for the shapes used by the services. -/
def pjoin (a b : String) : String := if a = "" then b else a ++ "/" ++ b

structure Oracle where
  statErr : String → Option String
  readdirErr : String → Option String

/-- Oracle of a filesystem in which every stat and readdir succeeds. -/
def noErr : Oracle := ⟨fun _ => none, fun _ => none⟩

/-! ## Folder profiler (DriveAnalysisService.analyzeFolder) -/

structure LooseFile where
  name : String
  size : Nat
  modified : Nat
deriving DecidableEq

structure FolderProfile where
  name : String
  path : String
  relativePath : String
  size : Nat
  fileCount : Nat
  subfolders : List String
  looseFiles : List LooseFile
  lastModified : Option Nat
deriving DecidableEq

/-- Condition of the source for refreshing lastModified: the field is
still unset or the modification time is strictly larger. -/
def mtimeBump (last : Option Nat) (md : Nat) : Bool :=
  match last with
  | none => true
  | some l => md > l

/-- Loop of DriveAnalysisService.analyzeFolder over the listed children.
The first stat failure aborts profiling of the whole folder. -/
def analyzeFolderGo (o : Oracle) (folderPath : String) :
    List FsEntry → FolderProfile → Except String FolderProfile
  | [], acc => Except.ok acc
  | .dir nm _ :: rest, acc =>
    match o.statErr (pjoin folderPath nm) with
    | some e => Except.error e
    | none =>
        analyzeFolderGo o folderPath rest
          { acc with subfolders := acc.subfolders ++ [nm] }
  | .file nm sz md :: rest, acc =>
    match o.statErr (pjoin folderPath nm) with
    | some e => Except.error e
    | none =>
        let acc1 := { acc with
          fileCount := acc.fileCount + 1,
          size := acc.size + sz,
          looseFiles := acc.looseFiles ++ [⟨nm, sz, md⟩] }
        analyzeFolderGo o folderPath rest
          (if mtimeBump acc1.lastModified md then { acc1 with lastModified := some md }
           else acc1)

/-- DriveAnalysisService.analyzeFolder: list the folder, then profile the
immediate children; any failure is fatal for this folder only. -/
def analyzeFolder (o : Oracle) (folderPath folderName relativePath : String)
    (children : List FsEntry) : Except String FolderProfile :=
  match o.readdirErr folderPath with
  | some e => Except.error e
  | none =>
      analyzeFolderGo o folderPath children
        ⟨folderName, folderPath, relativePath, 0, 0, [], [], none⟩

/-- Replacing the contents of every child directory by nothing: folder
profiling must not look below the immediate children. -/
def pruneEntry : FsEntry → FsEntry
  | .file nm sz md => .file nm sz md
  | .dir nm _ => .dir nm []

theorem analyzeFolderGo_inv (o : Oracle) (fp : String) :
    ∀ (children : List FsEntry) (acc : FolderProfile),
      acc.size = (acc.looseFiles.map (fun f => f.size)).sum →
      acc.fileCount = acc.looseFiles.length →
      ∀ p, analyzeFolderGo o fp children acc = Except.ok p →
        p.size = (p.looseFiles.map (fun f => f.size)).sum ∧
        p.fileCount = p.looseFiles.length := by
  intro children
  induction children with
  | nil =>
      intro acc h1 h2 p hp
      simp only [analyzeFolderGo, Except.ok.injEq] at hp
      rw [← hp]; exact ⟨h1, h2⟩
  | cons ent rest ih =>
      intro acc h1 h2 p hp
      cases ent with
      | dir nm cs =>
          rw [analyzeFolderGo] at hp
          rcases hstat : o.statErr (pjoin fp nm) with _ | e
          · rw [hstat] at hp
            exact ih { acc with subfolders := acc.subfolders ++ [nm] } h1 h2 p hp
          · rw [hstat] at hp
            simp at hp
      | file nm sz md =>
          rw [analyzeFolderGo] at hp
          rcases hstat : o.statErr (pjoin fp nm) with _ | e
          · rw [hstat] at hp
            simp only at hp
            set acc1 : FolderProfile := { acc with
              fileCount := acc.fileCount + 1,
              size := acc.size + sz,
              looseFiles := acc.looseFiles ++ [⟨nm, sz, md⟩] } with hacc1
            have hs1 : acc1.size = (acc1.looseFiles.map (fun f => f.size)).sum := by
              simp [hacc1, h1]
            have hc1 : acc1.fileCount = acc1.looseFiles.length := by
              simp [hacc1, h2]
            by_cases hb : mtimeBump acc1.lastModified md = true
            · rw [if_pos hb] at hp
              exact ih { acc1 with lastModified := some md } hs1 hc1 p hp
            · rw [if_neg hb] at hp
              exact ih acc1 hs1 hc1 p hp
          · rw [hstat] at hp
            simp at hp

theorem analyzeFolderGo_prune (o : Oracle) (fp : String) :
    ∀ (children : List FsEntry) (acc : FolderProfile),
      analyzeFolderGo o fp (children.map pruneEntry) acc
        = analyzeFolderGo o fp children acc := by
  intro children
  induction children with
  | nil => intro acc; rfl
  | cons ent rest ih =>
      intro acc
      cases ent with
      | dir nm cs =>
          simp only [List.map_cons, pruneEntry, analyzeFolderGo]
          cases o.statErr (pjoin fp nm) with
          | some e => rfl
          | none => exact ih _
      | file nm sz md =>
          simp only [List.map_cons, pruneEntry, analyzeFolderGo]
          cases o.statErr (pjoin fp nm) with
          | some e => rfl
          | none => exact ih _

/-- C8: a successfully produced FolderProfile satisfies size = sum of the
sizes of its looseFiles and fileCount = number of looseFiles, and the
profile is unchanged when the contents of the nested subfolders are
replaced by nothing, so the size never includes nested subfolder
contents. -/
theorem analyzeFolder_profile_invariant (o : Oracle)
    (fp fn rp : String) (children : List FsEntry) :
    (∀ p, analyzeFolder o fp fn rp children = Except.ok p →
      p.size = (p.looseFiles.map (fun f => f.size)).sum ∧
      p.fileCount = p.looseFiles.length) ∧
    analyzeFolder o fp fn rp (children.map pruneEntry)
      = analyzeFolder o fp fn rp children := by
  constructor
  · intro p hp
    unfold analyzeFolder at hp
    rcases hread : o.readdirErr fp with _ | e
    · rw [hread] at hp
      exact analyzeFolderGo_inv o fp children
        ⟨fn, fp, rp, 0, 0, [], [], none⟩ (by simp) (by simp) p hp
    · rw [hread] at hp; simp at hp
  · unfold analyzeFolder
    cases o.readdirErr fp with
    | some e => rfl
    | none => exact analyzeFolderGo_prune o fp children _

/-- Witness for C8 at a concrete folder holding two loose files and one
subfolder with content. -/
theorem analyzeFolder_profile_invariant_witness :
    (analyzeFolder noErr "/r/d0" "d0" "d0"
        [.file "a" 3 5, .dir "d" [.file "big" 100 1], .file "b" 4 9]
      = Except.ok ⟨"d0", "/r/d0", "d0", 7, 2, ["d"], [⟨"a", 3, 5⟩, ⟨"b", 4, 9⟩], some 9⟩) ∧
    ((7 : Nat) = ([(⟨"a", 3, 5⟩ : LooseFile), ⟨"b", 4, 9⟩].map (fun f => f.size)).sum ∧
     (2 : Nat) = [(⟨"a", 3, 5⟩ : LooseFile), ⟨"b", 4, 9⟩].length) := by
  constructor
  · rfl
  · exact (analyzeFolder_profile_invariant noErr "/r/d0" "d0" "d0"
      [.file "a" 3 5, .dir "d" [.file "big" 100 1], .file "b" 4 9]).1
      ⟨"d0", "/r/d0", "d0", 7, 2, ["d"], [⟨"a", 3, 5⟩, ⟨"b", 4, 9⟩], some 9⟩ (by rfl)

/-! ## Tree walker (DriveAnalysisService.scanDirectory)

The aggregate report carries the running totals, the folder profiles,
the three classification ledgers, the duplicate list (filled separately
by the duplicate detector) and the captured per-entry errors.  The
metadata fields scanTime and drivePath of the source are wall clock and
a constant and are not modelled. -/

structure DupRec where
  original : String
  duplicate : String
  relativePath : String
  size : Nat
  modified : Nat
deriving DecidableEq

structure ScanError where
  path : String
  error : String
deriving DecidableEq

structure FileRec where
  name : String
  path : String
  relativePath : String
  size : Nat
  modified : Option Nat
  reason : Option String
deriving DecidableEq

structure Analysis where
  totalSize : Nat
  fileCount : Nat
  folderCount : Nat
  folders : List FolderProfile
  largeFiles : List FileRec
  systemFiles : List FileRec
  protectedFiles : List FileRec
  duplicates : List DupRec
  errors : List ScanError
deriving DecidableEq

/-- Fresh report, as initialised by DriveAnalysisService.analyzeDrive. -/
def emptyAnalysis : Analysis := ⟨0, 0, 0, [], [], [], [], [], []⟩

/-- Classification block of the file branch of scanDirectory: count the
file, accumulate its size, and append it to the large, system and
protected ledgers as applicable.  The record literals carry exactly the
fields the source pushes: the system and protected records omit the
modification time, and only the protected record carries a reason. -/
def classifyFile (a : Analysis) (nm itemPath itemRel : String) (sz md : Nat) : Analysis :=
  let a1 := { a with fileCount := a.fileCount + 1, totalSize := a.totalSize + sz }
  let a2 := if sz > 100 * 1024 * 1024 then
      { a1 with largeFiles := a1.largeFiles ++ [⟨nm, itemPath, itemRel, sz, some md, none⟩] }
    else a1
  let a3 := if isSystemFile nm then
      { a2 with systemFiles := a2.systemFiles ++ [⟨nm, itemPath, itemRel, sz, none, none⟩] }
    else a2
  if isProtectedFile nm then
    { a3 with protectedFiles := a3.protectedFiles
        ++ [⟨nm, itemPath, itemRel, sz, none, some "Potential AI/code related file"⟩] }
  else a3

/-- DriveAnalysisService.scanDirectory over the listed children of a
directory.  Each child is statted inside a try block that also covers
folder profiling and the recursive descent, so any of those failures is
recorded as one error for that child and the walk continues with the
next sibling. -/
def scanDirectory (o : Oracle) : List FsEntry → String → String → Analysis → Analysis
  | [], _, _, a => a
  | .file nm sz md :: rest, dirPath, relPath, a =>
      match o.statErr (pjoin dirPath nm) with
      | some e => scanDirectory o rest dirPath relPath
          { a with errors := a.errors ++ [⟨pjoin dirPath nm, e⟩] }
      | none => scanDirectory o rest dirPath relPath
          (classifyFile a nm (pjoin dirPath nm) (pjoin relPath nm) sz md)
  | .dir nm cs :: rest, dirPath, relPath, a =>
      match o.statErr (pjoin dirPath nm) with
      | some e => scanDirectory o rest dirPath relPath
          { a with errors := a.errors ++ [⟨pjoin dirPath nm, e⟩] }
      | none =>
        let a1 := { a with folderCount := a.folderCount + 1 }
        match analyzeFolder o (pjoin dirPath nm) nm (pjoin relPath nm) cs with
        | Except.error e => scanDirectory o rest dirPath relPath
            { a1 with errors := a1.errors ++ [⟨pjoin dirPath nm, e⟩] }
        | Except.ok prof =>
          let a2 := { a1 with folders := a1.folders ++ [prof] }
          match o.readdirErr (pjoin dirPath nm) with
          | some e => scanDirectory o rest dirPath relPath
              { a2 with errors := a2.errors ++ [⟨pjoin dirPath nm, e⟩] }
          | none => scanDirectory o rest dirPath relPath
              (scanDirectory o cs (pjoin dirPath nm) (pjoin relPath nm) a2)

/-- Effect of processing one directory child of the walk. -/
def scanDirStep (o : Oracle) (ent : FsEntry) (dirPath relPath : String) (a : Analysis) :
    Analysis :=
  match ent with
  | .file nm sz md =>
      match o.statErr (pjoin dirPath nm) with
      | some e => { a with errors := a.errors ++ [⟨pjoin dirPath nm, e⟩] }
      | none => classifyFile a nm (pjoin dirPath nm) (pjoin relPath nm) sz md
  | .dir nm cs =>
      match o.statErr (pjoin dirPath nm) with
      | some e => { a with errors := a.errors ++ [⟨pjoin dirPath nm, e⟩] }
      | none =>
        let a1 := { a with folderCount := a.folderCount + 1 }
        match analyzeFolder o (pjoin dirPath nm) nm (pjoin relPath nm) cs with
        | Except.error e => { a1 with errors := a1.errors ++ [⟨pjoin dirPath nm, e⟩] }
        | Except.ok prof =>
          let a2 := { a1 with folders := a1.folders ++ [prof] }
          match o.readdirErr (pjoin dirPath nm) with
          | some e => { a2 with errors := a2.errors ++ [⟨pjoin dirPath nm, e⟩] }
          | none => scanDirectory o cs (pjoin dirPath nm) (pjoin relPath nm) a2

theorem scanDirectory_nil (o : Oracle) (dp rp : String) (a : Analysis) :
    scanDirectory o [] dp rp a = a := by
  simp [scanDirectory]

theorem scanDirectory_cons (o : Oracle) (ent : FsEntry) (rest : List FsEntry)
    (dp rp : String) (a : Analysis) :
    scanDirectory o (ent :: rest) dp rp a
      = scanDirectory o rest dp rp (scanDirStep o ent dp rp a) := by
  cases ent with
  | file nm sz md =>
      rw [scanDirectory, scanDirStep]
      rcases hstat : o.statErr (pjoin dp nm) with _ | e <;> simp [hstat]
  | dir nm cs =>
      rw [scanDirectory, scanDirStep]
      rcases hstat : o.statErr (pjoin dp nm) with _ | e
      · simp only [hstat]
        rcases hprof : analyzeFolder o (pjoin dp nm) nm (pjoin rp nm) cs with efail | prof
        · simp [hprof]
        · simp only [hprof]
          rcases hread : o.readdirErr (pjoin dp nm) with _ | e2 <;> simp [hread]
      · simp [hstat]

theorem scanDirectory_append (o : Oracle) (l1 l2 : List FsEntry)
    (dp rp : String) (a : Analysis) :
    scanDirectory o (l1 ++ l2) dp rp a
      = scanDirectory o l2 dp rp (scanDirectory o l1 dp rp a) := by
  induction l1 generalizing a with
  | nil => rw [List.nil_append, scanDirectory_nil]
  | cons ent t ih =>
      rw [List.cons_append, scanDirectory_cons, scanDirectory_cons, ih]

/-! ## Which entries the walk counts -/

/-- Folder profiling succeeds exactly when the folder can be listed and
every immediate child can be statted. -/
def profOK (o : Oracle) (dirPath : String) (cs : List FsEntry) : Bool :=
  (o.readdirErr dirPath).isNone
    && cs.all (fun c => (o.statErr (pjoin dirPath (entryName c))).isNone)

theorem analyzeFolderGo_ok_iff (o : Oracle) (fp : String) :
    ∀ (cs : List FsEntry) (acc : FolderProfile),
      (∃ p, analyzeFolderGo o fp cs acc = Except.ok p)
        ↔ cs.all (fun c => (o.statErr (pjoin fp (entryName c))).isNone) = true := by
  intro cs
  induction cs with
  | nil => intro acc; simp [analyzeFolderGo]
  | cons ent rest ih =>
      intro acc
      cases ent with
      | dir nm cs2 =>
          rw [analyzeFolderGo]
          rcases hstat : o.statErr (pjoin fp nm) with _ | e
          · simpa [entryName, hstat] using ih _
          · simp [entryName, hstat]
      | file nm sz md =>
          rw [analyzeFolderGo]
          rcases hstat : o.statErr (pjoin fp nm) with _ | e
          · simpa [entryName, hstat] using ih _
          · simp [entryName, hstat]

theorem analyzeFolder_ok_profOK (o : Oracle) {fp fn rp : String} {cs : List FsEntry}
    {p : FolderProfile} (h : analyzeFolder o fp fn rp cs = Except.ok p) :
    profOK o fp cs = true := by
  unfold analyzeFolder at h
  split at h
  next e2 heq => exact Except.noConfusion h
  next heq =>
    have hex : ∃ q, analyzeFolderGo o fp cs ⟨fn, fp, rp, 0, 0, [], [], none⟩ = Except.ok q :=
      ⟨p, h⟩
    have hall := (analyzeFolderGo_ok_iff o fp cs _).mp hex
    simp [profOK, heq, hall]

theorem analyzeFolder_ok_readdir (o : Oracle) {fp fn rp : String} {cs : List FsEntry}
    {p : FolderProfile} (h : analyzeFolder o fp fn rp cs = Except.ok p) :
    o.readdirErr fp = none := by
  unfold analyzeFolder at h
  split at h
  next e2 heq => exact Except.noConfusion h
  next heq => exact heq

theorem analyzeFolder_error_profOK (o : Oracle) {fp fn rp : String} {cs : List FsEntry}
    {e : String} (h : analyzeFolder o fp fn rp cs = Except.error e) :
    profOK o fp cs = false := by
  unfold analyzeFolder at h
  split at h
  next e2 heq => simp [profOK, heq]
  next heq =>
    have hnone : ¬ ∃ q, analyzeFolderGo o fp cs ⟨fn, fp, rp, 0, 0, [], [], none⟩ = Except.ok q := by
      intro hq
      obtain ⟨q, hq⟩ := hq
      rw [h] at hq
      exact Except.noConfusion hq
    have hall := (analyzeFolderGo_ok_iff o fp cs _).not.mp hnone
    simp only [profOK, heq, Option.isNone_none, Bool.true_and]
    simpa using hall

/-- Number of file children the walk reaches and stats successfully. -/
def countedFiles (o : Oracle) : List FsEntry → String → Nat
  | [], _ => 0
  | .file nm _ _ :: rest, dp =>
      (if (o.statErr (pjoin dp nm)).isNone then 1 else 0) + countedFiles o rest dp
  | .dir nm cs :: rest, dp =>
      (if (o.statErr (pjoin dp nm)).isNone && profOK o (pjoin dp nm) cs
       then countedFiles o cs (pjoin dp nm) else 0) + countedFiles o rest dp

/-- Number of directory children the walk reaches and stats successfully. -/
def countedDirs (o : Oracle) : List FsEntry → String → Nat
  | [], _ => 0
  | .file _ _ _ :: rest, dp => countedDirs o rest dp
  | .dir nm cs :: rest, dp =>
      (if (o.statErr (pjoin dp nm)).isNone then 1 else 0)
      + (if (o.statErr (pjoin dp nm)).isNone && profOK o (pjoin dp nm) cs
         then countedDirs o cs (pjoin dp nm) else 0)
      + countedDirs o rest dp

/-- Number of directories the walk lists successfully, the scanned root
excluded: a directory child is reached once its parent is entered, its
listing is attempted iff its stat succeeded, and the listing succeeds iff
the readdir oracle clears it. -/
def listedDirs (o : Oracle) : List FsEntry → String → Nat
  | [], _ => 0
  | .file _ _ _ :: rest, dp => listedDirs o rest dp
  | .dir nm cs :: rest, dp =>
      (if (o.statErr (pjoin dp nm)).isNone then
        (if (o.readdirErr (pjoin dp nm)).isNone then 1 else 0)
        + (if profOK o (pjoin dp nm) cs then listedDirs o cs (pjoin dp nm) else 0)
       else 0)
      + listedDirs o rest dp

theorem classifyFile_counts (a : Analysis) (nm ip irp : String) (sz md : Nat) :
    (classifyFile a nm ip irp sz md).fileCount = a.fileCount + 1 ∧
    (classifyFile a nm ip irp sz md).folderCount = a.folderCount := by
  unfold classifyFile
  split_ifs <;> simp

/-- C4 amended: after any scan, fileCount grows by exactly the number of
file entries whose stat succeeded during the walk, and folderCount grows
by exactly the number of directory children whose stat succeeded during
the walk, a count that can exceed the number of directories successfully
listed. -/
theorem scanDirectory_counts (o : Oracle) (es : List FsEntry) (dp rp : String) (a : Analysis) :
    (scanDirectory o es dp rp a).fileCount = a.fileCount + countedFiles o es dp ∧
    (scanDirectory o es dp rp a).folderCount = a.folderCount + countedDirs o es dp := by
  induction es, dp, rp, a using scanDirectory.induct o with
  | case1 dp rp a =>
      rw [scanDirectory_nil]
      simp [countedFiles, countedDirs]
  | case2 nm sz md rest dp rp a e hstat ih =>
      rw [scanDirectory]
      simp only [hstat]
      rw [countedFiles, countedDirs]
      simp only [hstat]
      obtain ⟨ihf, ihd⟩ := ih
      constructor
      · rw [ihf]; simp
      · rw [ihd]
  | case3 nm sz md rest dp rp a hstat ih =>
      rw [scanDirectory]
      simp only [hstat]
      rw [countedFiles, countedDirs]
      simp only [hstat]
      obtain ⟨ihf, ihd⟩ := ih
      obtain ⟨hcf, hcd⟩ := classifyFile_counts a nm (pjoin dp nm) (pjoin rp nm) sz md
      constructor
      · rw [ihf, hcf]; simp; omega
      · rw [ihd, hcd]
  | case4 nm cs rest dp rp a e hstat ih =>
      rw [scanDirectory]
      simp only [hstat]
      rw [countedFiles, countedDirs]
      simp only [hstat]
      obtain ⟨ihf, ihd⟩ := ih
      constructor
      · rw [ihf]; simp
      · rw [ihd]; simp
  | case5 nm cs rest dp rp a hstat a1 e hprof ih =>
      rw [scanDirectory]
      simp only [hstat, hprof]
      rw [countedFiles, countedDirs]
      have hpf : profOK o (pjoin dp nm) cs = false := analyzeFolder_error_profOK o hprof
      simp only [hstat, hpf]
      obtain ⟨ihf, ihd⟩ := ih
      constructor
      · rw [ihf]; simp
      · rw [ihd]; simp; omega
  | case6 nm cs rest dp rp a hstat a1 prof hprof a2 e hread ihrest =>
      exfalso
      rw [analyzeFolder_ok_readdir o hprof] at hread
      exact Option.noConfusion hread
  | case7 nm cs rest dp rp a hstat a1 prof hprof a2 hread ih1 ih1b ih2 =>
      rw [scanDirectory]
      simp only [hstat, hprof, hread]
      rw [countedFiles, countedDirs]
      have hpf : profOK o (pjoin dp nm) cs = true := analyzeFolder_ok_profOK o hprof
      simp only [hstat, hpf]
      obtain ⟨ih1f, ih1d⟩ := ih1
      obtain ⟨ih2f, ih2d⟩ := ih2
      constructor
      · rw [ih2f, ih1f]; simp; omega
      · rw [ih2d, ih1d]; simp; omega

/-! ## Fields carried by the classification records (C9) -/

theorem shape_append {α : Type} {P : α → Prop} {l : List α} {x : α}
    (hl : ∀ r ∈ l, P r) (hx : P x) : ∀ r ∈ l ++ [x], P r := by
  intro r hr
  rcases List.mem_append.mp hr with h1 | h2
  · exact hl r h1
  · have : r = x := by simpa using h2
    rw [this]; exact hx

theorem classifyFile_shapes (a : Analysis) (nm ip irp : String) (sz md : Nat)
    (hL : ∀ r ∈ a.largeFiles, r.modified.isSome = true ∧ r.reason = none)
    (hS : ∀ r ∈ a.systemFiles, r.modified = none ∧ r.reason = none)
    (hP : ∀ r ∈ a.protectedFiles,
      r.modified = none ∧ r.reason = some "Potential AI/code related file") :
    (∀ r ∈ (classifyFile a nm ip irp sz md).largeFiles,
      r.modified.isSome = true ∧ r.reason = none) ∧
    (∀ r ∈ (classifyFile a nm ip irp sz md).systemFiles,
      r.modified = none ∧ r.reason = none) ∧
    (∀ r ∈ (classifyFile a nm ip irp sz md).protectedFiles,
      r.modified = none ∧ r.reason = some "Potential AI/code related file") := by
  unfold classifyFile
  split_ifs <;>
    refine ⟨?_, ?_, ?_⟩ <;>
    first
      | exact hL
      | exact hS
      | exact hP
      | exact shape_append hL (by simp)
      | exact shape_append hS (by simp)
      | exact shape_append hP (by simp)

/-- C9 amended: every record the scan appends to largeFiles carries a
modification time and no reason; every record appended to systemFiles
carries neither a modification time nor a reason; every record appended
to protectedFiles carries a reason, always the fixed protected-file
message, but no modification time.  The name, path, relativePath and
size fields are present on all of them by construction. -/
theorem scanDirectory_record_shapes (o : Oracle) (es : List FsEntry)
    (dp rp : String) (a : Analysis) :
    (∀ r ∈ a.largeFiles, r.modified.isSome = true ∧ r.reason = none) →
    (∀ r ∈ a.systemFiles, r.modified = none ∧ r.reason = none) →
    (∀ r ∈ a.protectedFiles,
      r.modified = none ∧ r.reason = some "Potential AI/code related file") →
    ((∀ r ∈ (scanDirectory o es dp rp a).largeFiles,
        r.modified.isSome = true ∧ r.reason = none) ∧
     (∀ r ∈ (scanDirectory o es dp rp a).systemFiles,
        r.modified = none ∧ r.reason = none) ∧
     (∀ r ∈ (scanDirectory o es dp rp a).protectedFiles,
        r.modified = none ∧ r.reason = some "Potential AI/code related file")) := by
  induction es, dp, rp, a using scanDirectory.induct o with
  | case1 dp rp a =>
      intro hL hS hP
      rw [scanDirectory_nil]
      exact ⟨hL, hS, hP⟩
  | case2 nm sz md rest dp rp a e hstat ih =>
      intro hL hS hP
      rw [scanDirectory]
      simp only [hstat]
      exact ih hL hS hP
  | case3 nm sz md rest dp rp a hstat ih =>
      intro hL hS hP
      rw [scanDirectory]
      simp only [hstat]
      obtain ⟨l1, s1, p1⟩ := classifyFile_shapes a nm (pjoin dp nm) (pjoin rp nm) sz md hL hS hP
      exact ih l1 s1 p1
  | case4 nm cs rest dp rp a e hstat ih =>
      intro hL hS hP
      rw [scanDirectory]
      simp only [hstat]
      exact ih hL hS hP
  | case5 nm cs rest dp rp a hstat a1 e hprof ih =>
      intro hL hS hP
      rw [scanDirectory]
      simp only [hstat, hprof]
      exact ih hL hS hP
  | case6 nm cs rest dp rp a hstat a1 prof hprof a2 e hread ihrest =>
      intro hL hS hP
      rw [scanDirectory]
      simp only [hstat, hprof, hread]
      exact ihrest hL hS hP
  | case7 nm cs rest dp rp a hstat a1 prof hprof a2 hread ih1 ih1b ih2 =>
      intro hL hS hP
      rw [scanDirectory]
      simp only [hstat, hprof, hread]
      obtain ⟨l1, s1, p1⟩ := ih1 hL hS hP
      exact ih2 l1 s1 p1

/-- Concrete tree of the C9 witness: a large protected file and a system
file side by side. -/
def shapeTree : List FsEntry :=
  [.file "ai-video.bin" 209715200 3, .file ".DS_Store" 1 7]

/-- Witness for C9 amended at a concrete scan producing entries in all
three ledgers. -/
theorem scanDirectory_record_shapes_witness :
    (∀ r ∈ (scanDirectory noErr shapeTree "/r" "" emptyAnalysis).largeFiles,
        r.modified.isSome = true ∧ r.reason = none) ∧
    (∀ r ∈ (scanDirectory noErr shapeTree "/r" "" emptyAnalysis).systemFiles,
        r.modified = none ∧ r.reason = none) ∧
    (∀ r ∈ (scanDirectory noErr shapeTree "/r" "" emptyAnalysis).protectedFiles,
        r.modified = none ∧ r.reason = some "Potential AI/code related file") :=
  scanDirectory_record_shapes noErr shapeTree "/r" "" emptyAnalysis
    (by simp [emptyAnalysis]) (by simp [emptyAnalysis]) (by simp [emptyAnalysis])

/-- C9 counterexample: the record the scan appends to systemFiles for a
concrete .DS_Store file carries no modification time, refuting the claim
that every appended record carries the modified field. -/
theorem systemFile_record_missing_modified :
    (scanDirectory noErr [.file ".DS_Store" 1 7] "/r" "" emptyAnalysis).systemFiles
      = [⟨".DS_Store", "/r/.DS_Store", ".DS_Store", 1, none, none⟩] ∧
    ¬ (∀ r ∈ (scanDirectory noErr [.file ".DS_Store" 1 7] "/r" "" emptyAnalysis).systemFiles,
        r.modified.isSome = true) := by
  have hv : scanDirectory noErr [.file ".DS_Store" 1 7] "/r" "" emptyAnalysis
      = scanDirStep noErr (.file ".DS_Store" 1 7) "/r" "" emptyAnalysis := by
    rw [scanDirectory_cons, scanDirectory_nil]
  rw [hv]
  decide

/-! ## folderCount versus directories successfully listed (C4) -/

/-- Oracle of the C4 counterexample: both subdirectories can be statted
but neither can be listed. -/
def cexOracle : Oracle :=
  ⟨fun _ => none,
   fun p => if p = "/r/A" || p = "/r/B" then some "EACCES: permission denied" else none⟩

/-- Tree of the C4 counterexample. -/
def cexTree : List FsEntry := [.dir "A" [], .dir "B" []]

/-- C4 counterexample: scanning two stat-able subdirectories that cannot
be listed yields folderCount 2, while the number of directories
successfully listed during the walk is 0 excluding the scanned root and
1 including it, so folderCount matches neither reading of the claim. -/
theorem folderCount_not_listed_dirs :
    (scanDirectory cexOracle cexTree "/r" "" emptyAnalysis).folderCount = 2 ∧
    listedDirs cexOracle cexTree "/r" = 0 ∧
    (if (cexOracle.readdirErr "/r").isNone then 1 else 0)
      + listedDirs cexOracle cexTree "/r" = 1 ∧
    (2 : Nat) ≠ 0 ∧ (2 : Nat) ≠ 1 := by
  have hv : scanDirectory cexOracle cexTree "/r" "" emptyAnalysis
      = scanDirStep cexOracle (.dir "B" []) "/r" ""
          (scanDirStep cexOracle (.dir "A" []) "/r" "" emptyAnalysis) := by
    rw [cexTree, scanDirectory_cons, scanDirectory_cons, scanDirectory_nil]
  refine ⟨?_, ?_, ?_, by decide, by decide⟩
  · rw [hv]; decide
  · simp [cexTree, listedDirs, cexOracle, pjoin]
  · simp [cexTree, listedDirs, cexOracle, pjoin]

/-! ## Error isolation for a subdirectory with a bad child (C10) -/

theorem analyzeFolderGo_error_of_badChild (o : Oracle) (fp : String) :
    ∀ (cs : List FsEntry) (acc : FolderProfile) (cbad : FsEntry) (e : String),
      cs.find? (fun c => (o.statErr (pjoin fp (entryName c))).isSome) = some cbad →
      o.statErr (pjoin fp (entryName cbad)) = some e →
      analyzeFolderGo o fp cs acc = Except.error e := by
  intro cs
  induction cs with
  | nil => intro acc cbad e hfind hbad; simp at hfind
  | cons ent rest ih =>
      intro acc cbad e hfind hbad
      by_cases hpred : (o.statErr (pjoin fp (entryName ent))).isSome = true
      · have hstep : List.find? (fun c => (o.statErr (pjoin fp (entryName c))).isSome)
            (ent :: rest) = some ent := List.find?_cons_of_pos _ hpred
        rw [hstep] at hfind
        have hent : ent = cbad := by simpa using hfind
        subst hent
        cases ent with
        | dir nm cs2 =>
            rw [analyzeFolderGo]
            simp only [entryName] at hbad
            simp [hbad]
        | file nm sz md =>
            rw [analyzeFolderGo]
            simp only [entryName] at hbad
            simp [hbad]
      · have hstep : List.find? (fun c => (o.statErr (pjoin fp (entryName c))).isSome)
            (ent :: rest)
            = List.find? (fun c => (o.statErr (pjoin fp (entryName c))).isSome) rest :=
          List.find?_cons_of_neg _ hpred
        rw [hstep] at hfind
        have hnone : o.statErr (pjoin fp (entryName ent)) = none := by
          rcases hopt : o.statErr (pjoin fp (entryName ent)) with _ | v
          · rfl
          · rw [hopt] at hpred; simp at hpred
        cases ent with
        | dir nm cs2 =>
            rw [analyzeFolderGo]
            simp only [entryName] at hnone
            simp only [hnone]
            exact ih _ cbad e hfind hbad
        | file nm sz md =>
            rw [analyzeFolderGo]
            simp only [entryName] at hnone
            simp only [hnone]
            exact ih _ cbad e hfind hbad

theorem analyzeFolder_error_of_badChild (o : Oracle) (fp fn rp : String)
    (cs : List FsEntry) (cbad : FsEntry) (e : String)
    (hread : o.readdirErr fp = none)
    (hfind : cs.find? (fun c => (o.statErr (pjoin fp (entryName c))).isSome) = some cbad)
    (hbad : o.statErr (pjoin fp (entryName cbad)) = some e) :
    analyzeFolder o fp fn rp cs = Except.error e := by
  unfold analyzeFolder
  rw [hread]
  exact analyzeFolderGo_error_of_badChild o fp cs _ cbad e hfind hbad

/-- C10: when a subdirectory can be statted and listed but one of its
immediate children fails to stat, the walk records exactly one error for
that subdirectory, carrying the message of the first failing child, and
skips the subdirectory entirely: its profile is not appended, the walker
does not recurse into it, no descendant is counted or classified, and
the remaining siblings are processed from that state; yet folderCount
has already been incremented for the subdirectory. -/
theorem scanDirectory_folder_error_isolated (o : Oracle) (dp rp nm : String)
    (preEs postEs cs : List FsEntry) (a : Analysis) (cbad : FsEntry) (e : String)
    (hstat : o.statErr (pjoin dp nm) = none)
    (hread : o.readdirErr (pjoin dp nm) = none)
    (hfind : cs.find? (fun c =>
      (o.statErr (pjoin (pjoin dp nm) (entryName c))).isSome) = some cbad)
    (hbad : o.statErr (pjoin (pjoin dp nm) (entryName cbad)) = some e) :
    scanDirectory o (preEs ++ .dir nm cs :: postEs) dp rp a
      = scanDirectory o postEs dp rp
          (let mid := scanDirectory o preEs dp rp a;
           { mid with
              folderCount := mid.folderCount + 1,
              errors := mid.errors ++ [⟨pjoin dp nm, e⟩] }) := by
  rw [scanDirectory_append, scanDirectory_cons]
  have hfold : analyzeFolder o (pjoin dp nm) nm (pjoin rp nm) cs = Except.error e :=
    analyzeFolder_error_of_badChild o (pjoin dp nm) nm (pjoin rp nm) cs cbad e hread hfind hbad
  simp [scanDirStep, hstat, hfold]

/-- Oracle of the C10 witness: only the child of the subdirectory fails
to stat. -/
def badChildOracle : Oracle :=
  ⟨fun p => if p = "/r/D/bad" then some "EPERM: operation not permitted" else none,
   fun _ => none⟩

/-- Witness for C10 at a concrete subdirectory with one unstat-able
child. -/
theorem scanDirectory_folder_error_isolated_witness :
    scanDirectory badChildOracle ([] ++ .dir "D" [.file "bad" 1 1] :: []) "/r" "" emptyAnalysis
      = scanDirectory badChildOracle [] "/r" ""
          (let mid := scanDirectory badChildOracle [] "/r" "" emptyAnalysis;
           { mid with
              folderCount := mid.folderCount + 1,
              errors := mid.errors ++ [⟨pjoin "/r" "D", "EPERM: operation not permitted"⟩] }) :=
  scanDirectory_folder_error_isolated badChildOracle "/r" "" "D" [] [] [.file "bad" 1 1]
    emptyAnalysis (.file "bad" 1 1) "EPERM: operation not permitted"
    (by rfl) (by rfl) (by rfl) (by rfl)

/-! ## Duplicate detector (DriveAnalysisService.scanForDuplicates)

The detector walks the tree again, keeps a map from the key
name ++ "_" ++ size to the first path seen with that key, and emits one
duplicate record per later occurrence of an already-seen key.  Stat
failures skip the entry; a subdirectory whose listing fails is skipped
whole.  No error is recorded by this walk. -/

structure FileInfo where
  path : String
  relPath : String
  name : String
  size : Nat
  modified : Nat
deriving DecidableEq

/-- Index key of a visited file, as computed by the source template. -/
def hashOf (f : FileInfo) : String := mkHash f.name f.size

/-- Processing of one visited file: emit a record when the key is known,
otherwise remember the path as the original for that key. -/
def dupStep (acc : List (String × String) × List DupRec) (f : FileInfo) :
    List (String × String) × List DupRec :=
  match acc.1.find? (fun kv => kv.1 == hashOf f) with
  | some kv => (acc.1, acc.2 ++ [⟨kv.2, f.path, f.relPath, f.size, f.modified⟩])
  | none => (acc.1 ++ [(hashOf f, f.path)], acc.2)

/-- Fold of the duplicate step over a flat list of visited files. -/
def dupFold (fs : List FileInfo) (acc : List (String × String) × List DupRec) :
    List (String × String) × List DupRec :=
  fs.foldl dupStep acc

/-- DriveAnalysisService.scanForDuplicates over the listed children of a
directory, threading the key map and the emitted records. -/
def scanForDuplicates (o : Oracle) :
    List FsEntry → String → String → List (String × String) × List DupRec
      → List (String × String) × List DupRec
  | [], _, _, acc => acc
  | .file nm sz md :: rest, dirPath, relPath, acc =>
      match o.statErr (pjoin dirPath nm) with
      | some _ => scanForDuplicates o rest dirPath relPath acc
      | none => scanForDuplicates o rest dirPath relPath
          (dupStep acc ⟨pjoin dirPath nm, pjoin relPath nm, nm, sz, md⟩)
  | .dir nm cs :: rest, dirPath, relPath, acc =>
      match o.statErr (pjoin dirPath nm) with
      | some _ => scanForDuplicates o rest dirPath relPath acc
      | none =>
          match o.readdirErr (pjoin dirPath nm) with
          | some _ => scanForDuplicates o rest dirPath relPath acc
          | none => scanForDuplicates o rest dirPath relPath
              (scanForDuplicates o cs (pjoin dirPath nm) (pjoin relPath nm) acc)

/-- Files the duplicate walk visits, in traversal order: a file child is
visited when its stat succeeds, a directory child is descended into when
its stat and its listing succeed. -/
def filesOfD (o : Oracle) : List FsEntry → String → String → List FileInfo
  | [], _, _ => []
  | .file nm sz md :: rest, dirPath, relPath =>
      match o.statErr (pjoin dirPath nm) with
      | some _ => filesOfD o rest dirPath relPath
      | none => ⟨pjoin dirPath nm, pjoin relPath nm, nm, sz, md⟩
          :: filesOfD o rest dirPath relPath
  | .dir nm cs :: rest, dirPath, relPath =>
      match o.statErr (pjoin dirPath nm) with
      | some _ => filesOfD o rest dirPath relPath
      | none =>
          match o.readdirErr (pjoin dirPath nm) with
          | some _ => filesOfD o rest dirPath relPath
          | none => filesOfD o cs (pjoin dirPath nm) (pjoin relPath nm)
              ++ filesOfD o rest dirPath relPath

theorem dupFold_append (l1 l2 : List FileInfo)
    (acc : List (String × String) × List DupRec) :
    dupFold (l1 ++ l2) acc = dupFold l2 (dupFold l1 acc) := by
  simp [dupFold, List.foldl_append]

/-- The tree walk of the detector is the fold of the step over the list
of visited files. -/
theorem scanForDuplicates_eq_dupFold (o : Oracle) (es : List FsEntry) (dp rp : String)
    (acc : List (String × String) × List DupRec) :
    scanForDuplicates o es dp rp acc = dupFold (filesOfD o es dp rp) acc := by
  induction es, dp, rp, acc using scanForDuplicates.induct o with
  | case1 dp rp acc => simp [scanForDuplicates, filesOfD, dupFold]
  | case2 nm sz md rest dp rp acc e hstat ih =>
      rw [scanForDuplicates, filesOfD]
      simp only [hstat]
      exact ih
  | case3 nm sz md rest dp rp acc hstat ih =>
      rw [scanForDuplicates, filesOfD]
      simp only [hstat]
      rw [ih]
      simp [dupFold]
  | case4 nm cs rest dp rp acc e hstat ih =>
      rw [scanForDuplicates, filesOfD]
      simp only [hstat]
      exact ih
  | case5 nm cs rest dp rp acc hstat e hread ih =>
      rw [scanForDuplicates, filesOfD]
      simp only [hstat, hread]
      exact ih
  | case6 nm cs rest dp rp acc hstat hread ihc ihr =>
      rw [scanForDuplicates, filesOfD]
      simp only [hstat, hread]
      rw [ihr, ihc, dupFold_append]

/-- Declarative first-seen-wins description of the detector output over
the flat list of visited files: a file whose key was seen before yields
one record whose original is the path of the earliest file with that
key, and the original for a key is never re-assigned. -/
def specDups : List FileInfo → List FileInfo → List DupRec
  | _, [] => []
  | seen, f :: fs =>
      match seen.find? (fun g => hashOf g == hashOf f) with
      | some g => ⟨g.path, f.path, f.relPath, f.size, f.modified⟩ :: specDups (seen ++ [f]) fs
      | none => specDups (seen ++ [f]) fs

theorem find?_singleton {α : Type} (p : α → Bool) (a : α) :
    [a].find? p = if p a then some a else none := by
  cases h : p a <;> simp [List.find?, h]

theorem find?_eq_head?_filter {α : Type} (p : α → Bool) :
    ∀ l : List α, l.find? p = (l.filter p).head? := by
  intro l
  induction l with
  | nil => rfl
  | cons a t ih =>
      by_cases h : p a = true
      · have h1 : List.find? p (a :: t) = some a := List.find?_cons_of_pos _ h
        have h2 : List.filter p (a :: t) = a :: List.filter p t := List.filter_cons_of_pos h
        rw [h1, h2]
        rfl
      · have h1 : List.find? p (a :: t) = List.find? p t := List.find?_cons_of_neg _ h
        have h2 : List.filter p (a :: t) = List.filter p t := List.filter_cons_of_neg h
        rw [h1, h2, ih]

/-- The fold of the detector step emits exactly the declaratively
specified records, provided the key map agrees with the list of already
seen files. -/
theorem dupFold_snd_eq_specDups :
    ∀ (fs : List FileInfo) (m : List (String × String)) (ds : List DupRec)
      (seen : List FileInfo),
      (∀ h, (m.find? (fun kv => kv.1 == h)).map (fun kv => kv.2)
          = (seen.find? (fun g => hashOf g == h)).map (fun g => g.path)) →
      (dupFold fs (m, ds)).2 = ds ++ specDups seen fs := by
  intro fs
  induction fs with
  | nil =>
      intro m ds seen hinv
      simp [dupFold, specDups]
  | cons f fs ih =>
      intro m ds seen hinv
      have hf := hinv (hashOf f)
      have hcons : dupFold (f :: fs) (m, ds) = dupFold fs (dupStep (m, ds) f) := rfl
      rw [hcons, specDups]
      rcases hm : m.find? (fun kv => kv.1 == hashOf f) with _ | kv
      · rw [hm] at hf
        have hseen : seen.find? (fun g => hashOf g == hashOf f) = none := by
          rcases hs : seen.find? (fun g => hashOf g == hashOf f) with _ | g
          · first | rfl | exact hs
          · rw [hs] at hf; simp at hf
        rw [hseen]
        have hstep : dupStep (m, ds) f = (m ++ [(hashOf f, f.path)], ds) := by
          simp [dupStep, hm]
        rw [hstep]
        apply ih
        intro h2
        rcases hs3 : seen.find? (fun g => hashOf g == h2) with _ | g2
        · have hm3 : m.find? (fun kv => kv.1 == h2) = none := by
            have hx := hinv h2
            rw [hs3] at hx
            rcases hm4 : m.find? (fun kv => kv.1 == h2) with _ | kv3
            · first | rfl | exact hm4
            · rw [hm4] at hx; simp at hx
          rw [List.find?_append, List.find?_append, hs3, hm3]
          simp only [Option.none_or]
          rw [find?_singleton, find?_singleton]
          by_cases hk : (hashOf f == h2) = true
          · simp [hk]
          · have hk2 : (hashOf f == h2) = false := by simpa using hk
            simp [hk2]
        · have hx := hinv h2
          rw [hs3] at hx
          have hm3 : ∃ kv3, m.find? (fun kv => kv.1 == h2) = some kv3 ∧ kv3.2 = g2.path := by
            rcases hm4 : m.find? (fun kv => kv.1 == h2) with _ | kv3
            · rw [hm4] at hx; simp at hx
            · rw [hm4] at hx
              exact ⟨kv3, by first | rfl | exact hm4, by simpa using hx⟩
          obtain ⟨kv3, hm4, hp3⟩ := hm3
          rw [List.find?_append, List.find?_append, hs3, hm4]
          simp [hp3]
      · rw [hm] at hf
        obtain ⟨g, hg, hgpath⟩ : ∃ g, seen.find? (fun g2 => hashOf g2 == hashOf f) = some g
            ∧ kv.2 = g.path := by
          rcases hs : seen.find? (fun g2 => hashOf g2 == hashOf f) with _ | g
          · rw [hs] at hf; simp at hf
          · rw [hs] at hf
            exact ⟨g, by first | rfl | exact hs, by simpa using hf⟩
        rw [hg]
        have hstep : dupStep (m, ds) f
            = (m, ds ++ [⟨kv.2, f.path, f.relPath, f.size, f.modified⟩]) := by
          simp [dupStep, hm]
        rw [hstep]
        have hinv2 : ∀ h2, (m.find? (fun kv2 => kv2.1 == h2)).map (fun kv2 => kv2.2)
            = ((seen ++ [f]).find? (fun g2 => hashOf g2 == h2)).map (fun g2 => g2.path) := by
          intro h2
          rcases hs2 : seen.find? (fun g2 => hashOf g2 == h2) with _ | g2
          · have hmnone : m.find? (fun kv2 => kv2.1 == h2) = none := by
              have hx := hinv h2
              rw [hs2] at hx
              rcases hm3 : m.find? (fun kv2 => kv2.1 == h2) with _ | kv3
              · first | rfl | exact hm3
              · rw [hm3] at hx; simp at hx
            rw [List.find?_append, hs2, hmnone]
            simp only [Option.none_or]
            rw [find?_singleton]
            by_cases hk : (hashOf f == h2) = true
            · exfalso
              have hh2 : h2 = hashOf f := (beq_iff_eq.mp hk).symm
              rw [hh2] at hs2
              rw [hg] at hs2
              exact Option.noConfusion hs2
            · have hk2 : (hashOf f == h2) = false := by simpa using hk
              simp [hk2]
          · have hx := hinv h2
            rw [hs2] at hx
            rw [List.find?_append, hs2]
            simp only [Option.or_some]
            exact hx
        have hrec := ih m (ds ++ [⟨kv.2, f.path, f.relPath, f.size, f.modified⟩])
          (seen ++ [f]) hinv2
        rw [hrec, hgpath]
        simp

theorem specDups_cons_some {seen fs : List FileInfo} {f g : FileInfo}
    (h : seen.find? (fun g2 => hashOf g2 == hashOf f) = some g) :
    specDups seen (f :: fs)
      = ⟨g.path, f.path, f.relPath, f.size, f.modified⟩ :: specDups (seen ++ [f]) fs := by
  simp only [specDups, h]

theorem specDups_cons_none {seen fs : List FileInfo} {f : FileInfo}
    (h : seen.find? (fun g2 => hashOf g2 == hashOf f) = none) :
    specDups seen (f :: fs) = specDups (seen ++ [f]) fs := by
  simp only [specDups, h]

theorem contains_true_of_mem {l : List String} {x : String} (h : x ∈ l) :
    l.contains x = true := by
  simpa [List.contains] using List.elem_iff.mpr h

theorem mem_of_contains_true {l : List String} {x : String} (h : l.contains x = true) :
    x ∈ l := by
  exact List.elem_iff.mp (by simpa [List.contains] using h)

theorem contains_false_of_not_mem {l : List String} {x : String} (h : x ∉ l) :
    l.contains x = false := by
  cases hc : l.contains x
  · rfl
  · exact absurd (mem_of_contains_true hc) h

/-- Per key, the first-seen-wins fold emits one record for every
occurrence beyond the first: the count of emitted records whose
duplicate path lies in the fixed path set of that key equals the number
of visited files with the key, minus one when the key was not yet
seen. -/
theorem specDups_count (key : String) (S : List String) :
    ∀ (fs seen : List FileInfo),
      (∀ f ∈ fs, (f.path ∈ S ↔ hashOf f = key)) →
      ((specDups seen fs).filter (fun r => S.contains r.duplicate)).length
        = (if (seen.find? (fun g => hashOf g == key)).isSome = true
           then fs.countP (fun f => hashOf f == key)
           else fs.countP (fun f => hashOf f == key) - 1) := by
  intro fs
  induction fs with
  | nil =>
      intro seen hS
      simp only [specDups, List.filter_nil, List.length_nil, List.countP_nil]
      split <;> rfl
  | cons f fs ih =>
      intro seen hS
      have hSf := hS f (List.mem_cons_self f fs)
      have hTail : ∀ g ∈ fs, (g.path ∈ S ↔ hashOf g = key) :=
        fun g hg => hS g (List.mem_cons_of_mem f hg)
      have hApp : (seen ++ [f]).find? (fun g => hashOf g == key)
          = (seen.find? (fun g => hashOf g == key)).or
              (if (hashOf f == key) = true then some f else none) := by
        rw [List.find?_append, find?_singleton]
      rcases hfind : seen.find? (fun g2 => hashOf g2 == hashOf f) with _ | g
      · rw [specDups_cons_none hfind, ih (seen ++ [f]) hTail, hApp]
        by_cases hk : hashOf f = key
        · have hkeyb : (hashOf f == key) = true := beq_iff_eq.mpr hk
          have hseenNone : seen.find? (fun g2 => hashOf g2 == key) = none := by
            rw [← hk]; exact hfind
          rw [hseenNone, hkeyb]
          simp [List.countP_cons, hkeyb]
        · have hkeyb : (hashOf f == key) = false := by
            cases hb : (hashOf f == key)
            · rfl
            · exact absurd (beq_iff_eq.mp hb) hk
          rw [hkeyb]
          simp [List.countP_cons, hkeyb]
      · by_cases hk : hashOf f = key
        · have hkeyb : (hashOf f == key) = true := beq_iff_eq.mpr hk
          have hcont : S.contains f.path = true := contains_true_of_mem (hSf.mpr hk)
          have hfc : List.filter (fun r => S.contains r.duplicate)
              (specDups seen (f :: fs))
              = (⟨g.path, f.path, f.relPath, f.size, f.modified⟩ : DupRec)
                :: List.filter (fun r => S.contains r.duplicate)
                    (specDups (seen ++ [f]) fs) := by
            rw [specDups_cons_some hfind]
            exact List.filter_cons_of_pos (by simpa using hcont)
          rw [hfc, List.length_cons, ih (seen ++ [f]) hTail, hApp]
          have hseenSome : seen.find? (fun g2 => hashOf g2 == key) = some g := by
            rw [← hk]; exact hfind
          rw [hseenSome]
          simp [List.countP_cons, hkeyb]
        · have hkeyb : (hashOf f == key) = false := by
            cases hb : (hashOf f == key)
            · rfl
            · exact absurd (beq_iff_eq.mp hb) hk
          have hnc : S.contains f.path = false := by
            apply contains_false_of_not_mem
            intro hmem
            exact hk (hSf.mp hmem)
          have hfc : List.filter (fun r => S.contains r.duplicate)
              (specDups seen (f :: fs))
              = List.filter (fun r => S.contains r.duplicate)
                  (specDups (seen ++ [f]) fs) := by
            rw [specDups_cons_some hfind]
            exact List.filter_cons_of_neg (by simpa using hnc)
          rw [hfc, ih (seen ++ [f]) hTail, hApp, hkeyb]
          simp [List.countP_cons, hkeyb]

/-- Every record whose duplicate path lies in the path set of a key has
as original the path of the first file with that key among the already
seen files followed by the visited files. -/
theorem specDups_original (key : String) (S : List String) :
    ∀ (fs seen : List FileInfo),
      (∀ f ∈ fs, (f.path ∈ S ↔ hashOf f = key)) →
      ∀ r ∈ specDups seen fs, S.contains r.duplicate = true →
        ∃ g0, (seen ++ fs).find? (fun g => hashOf g == key) = some g0
          ∧ r.original = g0.path := by
  intro fs
  induction fs with
  | nil =>
      intro seen hS r hr
      simp [specDups] at hr
  | cons f fs ih =>
      intro seen hS r hr hcont
      have hSf := hS f (List.mem_cons_self f fs)
      have hTail : ∀ g ∈ fs, (g.path ∈ S ↔ hashOf g = key) :=
        fun g hg => hS g (List.mem_cons_of_mem f hg)
      have hassoc : (seen ++ [f]) ++ fs = seen ++ f :: fs := by
        rw [List.append_assoc]; rfl
      rcases hfind : seen.find? (fun g2 => hashOf g2 == hashOf f) with _ | g
      · rw [specDups_cons_none hfind] at hr
        obtain ⟨g0, hg0, ho⟩ := ih (seen ++ [f]) hTail r hr hcont
        exact ⟨g0, by rw [← hassoc]; exact hg0, ho⟩
      · rw [specDups_cons_some hfind] at hr
        rcases List.mem_cons.mp hr with hr1 | hr2
        · have hdup : r.duplicate = f.path := by rw [hr1]
          have hkey : hashOf f = key := hSf.mp (mem_of_contains_true (hdup ▸ hcont))
          have hseenSome : seen.find? (fun g2 => hashOf g2 == key) = some g := by
            rw [← hkey]; exact hfind
          refine ⟨g, ?_, by rw [hr1]⟩
          rw [List.find?_append, hseenSome]
          rfl
        · obtain ⟨g0, hg0, ho⟩ := ih (seen ++ [f]) hTail r hr2 hcont
          exact ⟨g0, by rw [← hassoc]; exact hg0, ho⟩

/-- Every emitted record relates an earlier file and a later file with
the same index key. -/
theorem specDups_pairs :
    ∀ (fs seen : List FileInfo), ∀ r ∈ specDups seen fs,
      ∃ f g, (f ∈ seen ∨ f ∈ fs) ∧ g ∈ fs ∧ r.original = f.path
        ∧ r.duplicate = g.path ∧ hashOf f = hashOf g := by
  intro fs
  induction fs with
  | nil =>
      intro seen r hr
      simp [specDups] at hr
  | cons f0 fs ih =>
      intro seen r hr
      rcases hfind : seen.find? (fun g2 => hashOf g2 == hashOf f0) with _ | g1
      · rw [specDups_cons_none hfind] at hr
        obtain ⟨f, g, hf, hg, ho, hd, hh⟩ := ih (seen ++ [f0]) r hr
        refine ⟨f, g, ?_, List.mem_cons_of_mem f0 hg, ho, hd, hh⟩
        rcases hf with hf | hf
        · rcases List.mem_append.mp hf with h1 | h2
          · exact Or.inl h1
          · have : f = f0 := by simpa using h2
            exact Or.inr (this ▸ List.mem_cons_self f0 fs)
        · exact Or.inr (List.mem_cons_of_mem f0 hf)
      · rw [specDups_cons_some hfind] at hr
        rcases List.mem_cons.mp hr with hr1 | hr2
        · refine ⟨g1, f0, Or.inl (List.mem_of_find?_eq_some hfind),
            List.mem_cons_self f0 fs, by rw [hr1], by rw [hr1], ?_⟩
          have hb := List.find?_some hfind
          exact beq_iff_eq.mp (by simpa using hb)
        · obtain ⟨f, g, hf, hg, ho, hd, hh⟩ := ih (seen ++ [f0]) r hr2
          refine ⟨f, g, ?_, List.mem_cons_of_mem f0 hg, ho, hd, hh⟩
          rcases hf with hf | hf
          · rcases List.mem_append.mp hf with h1 | h2
            · exact Or.inl h1
            · have : f = f0 := by simpa using h2
              exact Or.inr (this ▸ List.mem_cons_self f0 fs)
          · exact Or.inr (List.mem_cons_of_mem f0 hf)

/-- C3: the duplicate detector keys files by the pair of file name and
file size.  For the group of visited files carrying a given name and
size, in traversal order, the detector emits exactly one record fewer
than the group has members; every record generated by the group names
the first-seen group member as original; and every emitted record
relates two visited files equal in both name and size, so two files
sharing only a size but not a name never produce a record.  Visited
paths are assumed pairwise distinct, as a real directory walk
delivers. -/
theorem scanForDuplicates_fingerprint_spec (o : Oracle) (entries : List FsEntry)
    (dp rp nm : String) (sz : Nat)
    (hnd : ((filesOfD o entries dp rp).map (fun f => f.path)).Nodup) :
    ((((scanForDuplicates o entries dp rp ([], [])).2).filter (fun r =>
        (((filesOfD o entries dp rp).filter (fun f => f.name == nm && f.size == sz)).map
          (fun f => f.path)).contains r.duplicate)).length
      = ((filesOfD o entries dp rp).filter (fun f => f.name == nm && f.size == sz)).length - 1)
    ∧ (∀ r ∈ (scanForDuplicates o entries dp rp ([], [])).2,
        ((((filesOfD o entries dp rp).filter (fun f => f.name == nm && f.size == sz)).map
          (fun f => f.path)).contains r.duplicate) = true →
        some r.original
          = (((filesOfD o entries dp rp).filter
              (fun f => f.name == nm && f.size == sz)).head?).map (fun f => f.path))
    ∧ (∀ r ∈ (scanForDuplicates o entries dp rp ([], [])).2,
        ∃ f g, f ∈ filesOfD o entries dp rp ∧ g ∈ filesOfD o entries dp rp ∧
          r.original = f.path ∧ r.duplicate = g.path ∧ f.name = g.name ∧ f.size = g.size) := by
  set fs := filesOfD o entries dp rp with hfs
  have hB1 : ∀ f : FileInfo, hashOf f = mkHash nm sz ↔ (f.name = nm ∧ f.size = sz) := by
    intro f
    constructor
    · intro h
      exact mkHash_injective h
    · rintro ⟨h1, h2⟩
      show mkHash f.name f.size = mkHash nm sz
      rw [h1, h2]
  have hpred : ∀ f ∈ fs, ((f.name == nm && f.size == sz) = (hashOf f == mkHash nm sz)) := by
    intro f _
    by_cases h : hashOf f = mkHash nm sz
    · obtain ⟨h1, h2⟩ := (hB1 f).mp h
      simp [h, h1, h2]
    · have hhb : (hashOf f == mkHash nm sz) = false := by
        cases hb : (hashOf f == mkHash nm sz)
        · rfl
        · exact absurd (beq_iff_eq.mp hb) h
      rw [hhb]
      cases hb1 : (f.name == nm)
      · simp
      · cases hb2 : (f.size == sz)
        · simp
        · exact absurd ((hB1 f).mpr ⟨beq_iff_eq.mp hb1, beq_iff_eq.mp hb2⟩) h
  have hfilter : fs.filter (fun f => f.name == nm && f.size == sz)
      = fs.filter (fun f => hashOf f == mkHash nm sz) := List.filter_congr hpred
  have hSiff : ∀ f ∈ fs,
      (f.path ∈ (fs.filter (fun f2 => f2.name == nm && f2.size == sz)).map (fun f2 => f2.path)
        ↔ hashOf f = mkHash nm sz) := by
    intro f hfmem
    constructor
    · intro hmem
      obtain ⟨g, hg, hgp⟩ := List.mem_map.mp hmem
      have hgfs : g ∈ fs := (List.mem_filter.mp hg).1
      have hfg : g = f := List.inj_on_of_nodup_map hnd hgfs hfmem hgp
      have hcond := (List.mem_filter.mp hg).2
      rw [hfg] at hcond
      obtain ⟨hb1, hb2⟩ := (Bool.and_eq_true _ _).mp hcond
      exact (hB1 f).mpr ⟨beq_iff_eq.mp hb1, beq_iff_eq.mp hb2⟩
    · intro h
      obtain ⟨h1, h2⟩ := (hB1 f).mp h
      exact List.mem_map.mpr ⟨f, List.mem_filter.mpr ⟨hfmem, by simp [h1, h2]⟩, rfl⟩
  have hveq : (scanForDuplicates o entries dp rp ([], [])).2 = specDups [] fs := by
    rw [scanForDuplicates_eq_dupFold]
    have := dupFold_snd_eq_specDups fs [] [] [] (by intro h; rfl)
    simpa using this
  refine ⟨?_, ?_, ?_⟩
  · rw [hveq, specDups_count (mkHash nm sz) _ fs [] hSiff]
    rw [if_neg (by simp [List.find?])]
    rw [List.countP_eq_length_filter, ← hfilter]
  · intro r hr hcont
    rw [hveq] at hr
    obtain ⟨g0, hg0, ho⟩ := specDups_original (mkHash nm sz) _ fs [] hSiff r hr hcont
    rw [List.nil_append] at hg0
    have hfind2 : fs.find? (fun g => hashOf g == mkHash nm sz)
        = (fs.filter (fun f => f.name == nm && f.size == sz)).head? := by
      rw [find?_eq_head?_filter, ← hfilter]
    rw [hfind2] at hg0
    rw [ho, hg0]
    rfl
  · intro r hr
    rw [hveq] at hr
    obtain ⟨f, g, hf, hg, ho, hd, hh⟩ := specDups_pairs fs [] r hr
    have hf2 : f ∈ fs := by
      rcases hf with hf | hf
      · simp at hf
      · exact hf
    have hng : f.name = g.name ∧ f.size = g.size := mkHash_injective hh
    exact ⟨f, g, hf2, hg, ho, hd, hng.1, hng.2⟩

/-- Concrete tree of the C3 witness: the same photo name and size at two
levels, plus two files sharing a size but not a name. -/
def dupTree : List FsEntry :=
  [.file "photo.jpg" 5 1, .dir "sub" [.file "photo.jpg" 5 2],
   .file "b.txt" 10 3, .file "a.txt" 10 4]

/-- Witness for C3 at a concrete tree. -/
theorem scanForDuplicates_fingerprint_spec_witness :
    ((((scanForDuplicates noErr dupTree "/r" "" ([], [])).2).filter (fun r =>
        (((filesOfD noErr dupTree "/r" "").filter
            (fun f => f.name == "photo.jpg" && f.size == 5)).map
          (fun f => f.path)).contains r.duplicate)).length
      = ((filesOfD noErr dupTree "/r" "").filter
          (fun f => f.name == "photo.jpg" && f.size == 5)).length - 1)
    ∧ (∀ r ∈ (scanForDuplicates noErr dupTree "/r" "" ([], [])).2,
        ((((filesOfD noErr dupTree "/r" "").filter
            (fun f => f.name == "photo.jpg" && f.size == 5)).map
          (fun f => f.path)).contains r.duplicate) = true →
        some r.original
          = (((filesOfD noErr dupTree "/r" "").filter
              (fun f => f.name == "photo.jpg" && f.size == 5)).head?).map (fun f => f.path))
    ∧ (∀ r ∈ (scanForDuplicates noErr dupTree "/r" "" ([], [])).2,
        ∃ f g, f ∈ filesOfD noErr dupTree "/r" "" ∧ g ∈ filesOfD noErr dupTree "/r" "" ∧
          r.original = f.path ∧ r.duplicate = g.path ∧ f.name = g.name ∧ f.size = g.size) :=
  scanForDuplicates_fingerprint_spec noErr dupTree "/r" "" "photo.jpg" 5 (by
    have hv : filesOfD noErr dupTree "/r" ""
        = [⟨"/r/photo.jpg", "photo.jpg", "photo.jpg", 5, 1⟩,
           ⟨"/r/sub/photo.jpg", "sub/photo.jpg", "photo.jpg", 5, 2⟩,
           ⟨"/r/b.txt", "b.txt", "b.txt", 10, 3⟩,
           ⟨"/r/a.txt", "a.txt", "a.txt", 10, 4⟩] := by
      simp [dupTree, filesOfD, noErr, pjoin]
    rw [hv]
    decide)

end DriveSage
